import Mathlib

/-!
Verification of the client-side orchestration layer of the RAG frontend
(`src/frontend/src`): the streaming chat response handling in
`ChatInterface.tsx`, the document polling and deletion logic in `page.tsx`
and `UploadZone.tsx`, the cloud-sync browser logic in `SyncSourcePanel.tsx`,
and the upload pre-filter in `UploadZone.tsx`.

Each definition is a direct shallow embedding of the corresponding
TypeScript function; the theorems at the end of the file settle the
specification claims about them.
-/

namespace RagFrontend

/-! ## JSON payload model

`ChatInterface.tsx` parses each stream line's payload with `JSON.parse` and
reads the fields `status`, `content`, `error`, `done`.  The payloads the
backend emits are compact flat JSON objects whose values are strings or
booleans.  `parseJsonObject` below models ECMAScript `JSON.parse` restricted
to exactly that fragment: compact (no whitespace) flat objects with
escape-free string keys and string/boolean values.  Inputs outside the
fragment are rejected, which agrees with `JSON.parse` on every payload and
payload fragment considered in this development (truncated object literals
are rejected by both). -/

/-- A JSON value of the fragment used by the stream frames. -/
inductive JVal
  | str (s : String)
  | bool (b : Bool)
deriving DecidableEq, Repr

/-- The opening brace character, written via its code point. -/
def lbraceChar : Char := Char.ofNat 123

/-- The closing brace character, written via its code point. -/
def rbraceChar : Char := Char.ofNat 125

/-- Parse a JSON string literal (no escape sequences) from the front of the
input; returns the decoded string and the remaining characters. -/
def parseStringLit : List Char → Option (String × List Char)
  | c :: rest => if c = '"' then go rest [] else none
  | [] => none
where
  go : List Char → List Char → Option (String × List Char)
  | [], _ => none
  | c :: rest, acc =>
    if c = '"' then some (String.mk acc.reverse, rest)
    else if c = '\\' then none
    else go rest (c :: acc)

/-- Parse a JSON value (string literal or boolean) from the front of the
input. -/
def parseValue (cs : List Char) : Option (JVal × List Char) :=
  match cs with
  | 't' :: 'r' :: 'u' :: 'e' :: rest => some (JVal.bool true, rest)
  | 'f' :: 'a' :: 'l' :: 's' :: 'e' :: rest => some (JVal.bool false, rest)
  | _ =>
    match parseStringLit cs with
    | some (s, rest) => some (JVal.str s, rest)
    | none => none

/-- Parse the members of a JSON object after the opening brace, consuming
the closing brace.  `fuel` bounds the recursion by the input length. -/
def parseMembers : Nat → List Char → Option (List (String × JVal) × List Char)
  | 0, _ => none
  | Nat.succ fuel, cs =>
    match parseStringLit cs with
    | none => none
    | some (k, cs1) =>
      match cs1 with
      | c :: cs2 =>
        if c = ':' then
          match parseValue cs2 with
          | none => none
          | some (v, cs3) =>
            match cs3 with
            | d :: cs4 =>
              if d = ',' then
                match parseMembers fuel cs4 with
                | some (ms, r) => some ((k, v) :: ms, r)
                | none => none
              else if d = rbraceChar then some ([(k, v)], cs4)
              else none
            | [] => none
        else none
      | [] => none

/-- Model of `JSON.parse` on the flat-object fragment: succeeds only when
the whole input is a single compact object literal. -/
def parseJsonObject (payload : List Char) : Option (List (String × JVal)) :=
  match payload with
  | c :: rest =>
    if c = lbraceChar then
      if rest = [rbraceChar] then some []
      else
        match parseMembers rest.length rest with
        | some (ms, []) => some ms
        | _ => none
    else none
  | [] => none

/-- JavaScript property access on a parsed object (`data.status` etc.):
with duplicate keys, `JSON.parse` keeps the last occurrence. -/
def getField (obj : List (String × JVal)) (key : String) : Option JVal :=
  match obj.reverse.find? (fun p => p.1 == key) with
  | some p => some p.2
  | none => none

/-- JavaScript truthiness of an optional field of the fragment:
absent and the empty string and `false` are falsy. -/
def jTruthy : Option JVal → Bool
  | some (JVal.str s) => !(s == "")
  | some (JVal.bool b) => b
  | none => false

/-- JavaScript string coercion of a fragment value, as performed by
`msg.content + data.content`. -/
def jToString : JVal → String
  | JVal.str s => s
  | JVal.bool b => if b then "true" else "false"

/-! ## Streaming response decoding (`ChatInterface.tsx`, lines 132-144)

The reader loop decodes each transport chunk independently:
`chunk.split("\n")`, then for each line, if it starts with `data: ` the
remainder is `JSON.parse`d; lines failing either step contribute nothing.
There is no buffer carrying a trailing partial line into the next chunk. -/

/-- `String.prototype.split` with the single-character separator `"\n"`. -/
def splitLines : List Char → List (List Char)
  | [] => [[]]
  | c :: rest =>
    if c = '\n' then [] :: splitLines rest
    else
      match splitLines rest with
      | [] => [[c]]
      | l :: ls => (c :: l) :: ls

/-- The six characters of the SSE line header checked by
`line.startsWith("data: ")`. -/
def dataHeader : List Char := ['d', 'a', 't', 'a', ':', ' ']

/-- Process one line of a chunk: the payload after `data: ` is parsed;
other lines and unparseable payloads yield nothing
(`if (e instanceof SyntaxError) continue`). -/
def processLine (line : List Char) : Option (List (String × JVal)) :=
  if line.take 6 = dataHeader then parseJsonObject (line.drop 6) else none

/-- Decode one transport chunk exactly as one iteration of the reader loop
does: split on the record delimiter and parse each line. -/
def processChunk (chunk : String) : List (List (String × JVal)) :=
  (splitLines chunk.data).filterMap processLine

/-- Decode a whole stream delivered as a list of chunks.  The source loop
keeps no decoding state across iterations, so the decoded sequence is the
concatenation of the per-chunk decodings. -/
def decodeStream (chunks : List String) : List (List (String × JVal)) :=
  (chunks.map processChunk).flatten

/-- A chunk made of complete delimiter-terminated records. -/
def chunkOfRecords (recs : List (List Char)) : String :=
  String.mk ((recs.map (fun r => r ++ ['\n'])).flatten)

/-! ## Chat submission (`ChatInterface.tsx`, `handleSubmit`)

The component state embedded here is the state `handleSubmit` reads and
writes: the context's message list and session id as stored by the parent
through `onMessagesChange`, the `isLoading` busy flag, and the inline
`error` text.  A run of `handleSubmit` is modelled as a function of the
initial state, the submitted input, the two fresh message ids produced from
`Date.now()`, and the network response (transport failure, non-ok HTTP
response, or a decoded frame stream). -/

/-- Whitespace as recognised by `String.prototype.trim`. -/
def isWsChar (c : Char) : Bool :=
  c = ' ' || c = '\t' || c = '\n' || c = '\r'

/-- Drop leading whitespace characters. -/
def dropLeadingWs : List Char → List Char
  | [] => []
  | c :: rest => if isWsChar c then dropLeadingWs rest else c :: rest

/-- `String.prototype.trim`: strip whitespace from both ends. -/
def jsTrim (s : String) : String :=
  String.mk ((dropLeadingWs (dropLeadingWs s.data).reverse).reverse)

/-- Message role, `"user" | "assistant"`. -/
inductive Role
  | user
  | assistant
deriving DecidableEq, Repr

/-- A chat `Message` (`id`, `role`, `content`). -/
structure Msg where
  id : Nat
  role : Role
  content : String
deriving DecidableEq, Repr

/-- The interim text shown for `status: "thinking"`. -/
def placeholderText : String := "Analyzing documents..."

/-- The `currentMessages.map(...)` update targeting the in-progress
assistant message by id. -/
def updAssistant (aid : Nat) (f : String → String) (msgs : List Msg) : List Msg :=
  msgs.map (fun m => if m.id = aid then ⟨m.id, m.role, f m.content⟩ else m)

/-- Result of folding stream frames: the message list, the error thrown by
an `error` field (stopping the fold), and the `save-response` calls fired
by `done` frames. -/
structure FrameStep where
  msgs : List Msg
  thrown : Option String
  saves : List (Nat × String)
deriving DecidableEq, Repr

/-- JavaScript truthiness of `updatedSessionId` (a number or null). -/
def sessionTruthy : Option Nat → Bool
  | some n => !(n == 0)
  | none => false

/-- Fold one decoded frame into the message list, translated from the body
of the `for (const line of lines)` loop: a `"thinking"` status writes the
placeholder; a truthy `content` replaces the placeholder or appends;
a truthy `error` is thrown; a truthy `done` (with a truthy session id)
fires the fire-and-forget persistence call when the assistant message is
non-empty. -/
def applyFrame (aid : Nat) (sid : Option Nat) (msgs : List Msg)
    (obj : List (String × JVal)) : FrameStep :=
  let m1 := if getField obj "status" == some (JVal.str "thinking")
    then updAssistant aid (fun _ => placeholderText) msgs else msgs
  let m2 := match getField obj "content" with
    | some v =>
      if jTruthy (some v) then
        updAssistant aid
          (fun old => if old = placeholderText then jToString v else old ++ jToString v) m1
      else m1
    | none => m1
  let finish : Unit → FrameStep := fun _ =>
    let saves :=
      if jTruthy (getField obj "done") && sessionTruthy sid then
        match m2.find? (fun m => m.id == aid) with
        | some fm => if fm.content ≠ "" then [(sid.getD 0, fm.content)] else []
        | none => []
      else []
    ⟨m2, none, saves⟩
  match getField obj "error" with
  | some v => if jTruthy (some v) then ⟨m2, some (jToString v), []⟩ else finish ()
  | none => finish ()

/-- Fold a decoded frame sequence; a thrown error stops processing
(the exception leaves the reader loop). -/
def runFrames (aid : Nat) (sid : Option Nat) : List Msg → List (List (String × JVal)) → FrameStep
  | msgs, [] => ⟨msgs, none, []⟩
  | msgs, obj :: rest =>
    let step := applyFrame aid sid msgs obj
    match step.thrown with
    | some e => ⟨step.msgs, some e, step.saves⟩
    | none =>
      let cont := runFrames aid sid step.msgs rest
      ⟨cont.msgs, cont.thrown, step.saves ++ cont.saves⟩

/-- `updatedSessionId`: the parsed `X-Session-Id` header when present,
otherwise the session id held before the send. -/
def mergeSessionId (newSessionId old : Option Nat) : Option Nat :=
  match newSessionId with
  | some n => some n
  | none => old

/-- The chat state `handleSubmit` touches. -/
structure ChatState where
  messages : List Msg
  sessionId : Option Nat
  isLoading : Bool
  error : Option String
deriving DecidableEq, Repr

/-- Outcome of the network exchange opened by `handleSubmit`. -/
inductive ChatResponse
  | netError (message : String)
  | httpError (detail : String)
  | ok (newSessionId : Option Nat) (frames : List (List (String × JVal)))
deriving DecidableEq, Repr

/-- Result of a `handleSubmit` run: final state, whether a request was
issued, and the persistence calls fired. -/
structure SubmitOutcome where
  state : ChatState
  requestSent : Bool
  saves : List (Nat × String)
deriving DecidableEq, Repr

/-- The catch block's test
`last?.role === "assistant" && !last.content` — note it inspects the
`messages` prop captured when the run started, not the current list. -/
def isCatchTrim (msgs : List Msg) : Bool :=
  match msgs.getLast? with
  | some last => last.role == Role.assistant && last.content == ""
  | none => false

/-- Messages stored after the catch block runs: the stale pre-send list
minus its last element when the stale test fires, otherwise whatever was
last passed to `onMessagesChange`. -/
def catchMessages (origMessages curMessages : List Msg) : List Msg :=
  if isCatchTrim origMessages then origMessages.dropLast else curMessages

/-- `handleSubmit` from `ChatInterface.tsx`: validation guards, append the
user message, issue the request, fold the streamed frames, and run the
catch/finally blocks.  `hasTarget` is `isGlobalMode || document !== null`;
`uid`/`aid` are the ids minted for the user and assistant messages. -/
def handleSubmit (st : ChatState) (hasTarget : Bool) (input : String) (uid aid : Nat)
    (resp : ChatResponse) : SubmitOutcome :=
  if jsTrim input = "" ∨ st.isLoading = true then ⟨st, false, []⟩
  else if hasTarget = false then ⟨st, false, []⟩
  else
    let userMessage : Msg := ⟨uid, Role.user, jsTrim input⟩
    let updatedMessages := st.messages ++ [userMessage]
    match resp with
    | ChatResponse.netError message =>
      ⟨⟨catchMessages st.messages updatedMessages, st.sessionId, false, some message⟩, true, []⟩
    | ChatResponse.httpError detail =>
      let e := if detail = "" then "Failed to send message" else detail
      ⟨⟨catchMessages st.messages updatedMessages, st.sessionId, false, some e⟩, true, []⟩
    | ChatResponse.ok newSessionId frames =>
      let updatedSessionId := mergeSessionId newSessionId st.sessionId
      let assistantMessage : Msg := ⟨aid, Role.assistant, ""⟩
      let currentMessages := updatedMessages ++ [assistantMessage]
      let run := runFrames aid updatedSessionId currentMessages frames
      match run.thrown with
      | some e =>
        if isCatchTrim st.messages then
          ⟨⟨st.messages.dropLast, st.sessionId, false, some e⟩, true, run.saves⟩
        else
          ⟨⟨run.msgs, updatedSessionId, false, some e⟩, true, run.saves⟩
      | none => ⟨⟨run.msgs, updatedSessionId, false, none⟩, true, run.saves⟩

/-- A decoded `StatusUpdate("thinking")` frame. -/
def thinkingFrame : List (String × JVal) := [("status", JVal.str "thinking")]

/-- A decoded `ContentDelta` frame carrying text `d`. -/
def deltaFrame (d : String) : List (String × JVal) := [("content", JVal.str d)]

/-- A decoded `DoneFrame`. -/
def doneFrame : List (String × JVal) := [("done", JVal.bool true)]

/-- Concatenation of a list of strings. -/
def strJoin : List String → String
  | [] => ""
  | s :: ss => s ++ strJoin ss

/-- The assistant-message content after folding a sequence of delta texts
into content `c`, following the source's update: an empty delta is skipped
(falsy), a delta arriving while the content equals the placeholder replaces
it, any other delta is appended. -/
def contentAfter : String → List String → String
  | c, [] => c
  | c, d :: ds =>
    contentAfter (if d = "" then c else if c = placeholderText then d else c ++ d) ds

/-! ## Document polling (`page.tsx` lines 70-89, `UploadZone.tsx` lines 65-113)

Both polling loops issue one status query per processing document and fold
the response into component state; transport failures are only logged and
non-ok responses are ignored. -/

/-- Document processing status. -/
inductive DocStatus
  | processing
  | ready
  | failed
deriving DecidableEq, Repr

/-- A `Document` record as held by the frontend. -/
structure DocumentR where
  id : Nat
  filename : String
  original_filename : String
  status : DocStatus
  processing_stage : Option String
  processing_progress : Option Nat
  error_message : Option String
  page_count : Option Nat
  chunk_count : Option Nat
  created_at : String
deriving DecidableEq, Repr

/-- Outcome of one `fetch` of a document's status. -/
inductive PollResponse
  | netError
  | notOk
  | ok (doc : DocumentR)
deriving DecidableEq, Repr

/-- One document's poll step of the `page.tsx` reconciliation interval:
on success the returned snapshot replaces the record with the same id; a
transport failure is only logged and a non-ok response is ignored. -/
def pollDocumentTick (docs : List DocumentR) (r : PollResponse) : List DocumentR :=
  match r with
  | PollResponse.netError => docs
  | PollResponse.notOk => docs
  | PollResponse.ok updatedDoc =>
    docs.map (fun d => if d.id = updatedDoc.id then updatedDoc else d)

/-- The `UploadZone.tsx` state its polling interval mutates. -/
structure UploadPollState where
  processingDocs : List Nat
  processingInfo : List (Nat × String × Nat)
  uploadStatus : Option (Bool × String)
deriving DecidableEq, Repr

/-- One document's poll step of the `UploadZone.tsx` interval, translated
from the loop body: a processing snapshot refreshes stage/progress, a
terminal snapshot removes the id and sets the status banner, and failures
change nothing. -/
def uploadPollTick (st : UploadPollState) (docId : Nat) (r : PollResponse) : UploadPollState :=
  match r with
  | PollResponse.netError => st
  | PollResponse.notOk => st
  | PollResponse.ok doc =>
    if doc.status = DocStatus.processing then
      ⟨st.processingDocs,
        (docId, doc.processing_stage.getD "uploading", doc.processing_progress.getD 0) ::
          st.processingInfo.filter (fun p => p.1 ≠ docId),
        st.uploadStatus⟩
    else if doc.status = DocStatus.ready then
      ⟨st.processingDocs.filter (fun i => i ≠ docId),
        st.processingInfo.filter (fun p => p.1 ≠ docId),
        some (true, "Документ обработан")⟩
    else
      ⟨st.processingDocs.filter (fun i => i ≠ docId),
        st.processingInfo.filter (fun p => p.1 ≠ docId),
        some (false, "Ошибка обработки документа")⟩

/-! ## Document deletion (`page.tsx`, `handleDeleteDocument`) -/

/-- One conversation context entry of `chatStateMap`. -/
structure ChatEntry where
  messages : List Msg
  sessionId : Option Nat
deriving DecidableEq, Repr

/-- Lookup in the string-keyed `chatStateMap` object. -/
def mapLookup (m : List (String × ChatEntry)) (k : String) : Option ChatEntry :=
  match m.find? (fun p => p.1 == k) with
  | some p => some p.2
  | none => none

/-- `handleDeleteDocument`: filter the document out of the list and
`delete` the chat-state key `String(docId)`. -/
def handleDeleteDocument (docs : List DocumentR) (chatStateMap : List (String × ChatEntry))
    (docId : Nat) : List DocumentR × List (String × ChatEntry) :=
  (docs.filter (fun d => d.id ≠ docId),
   chatStateMap.filter (fun p => p.1 ≠ toString docId))

/-! ## Cloud sync browser (`SyncSourcePanel.tsx`) -/

/-- A directory entry of the browse listing. -/
structure BrowseFolderR where
  name : String
  path : String
deriving DecidableEq, Repr

/-- A file entry of the browse listing. -/
structure BrowseFileR where
  name : String
  path : String
  size : Nat
  modified : String
  extension : String
deriving DecidableEq, Repr

/-- `isFileInSystem`: a browsed file name is already in the system when a
known document has it as original name and is not failed. -/
def isFileInSystem (existingDocuments : List DocumentR) (fileName : String) : Bool :=
  existingDocuments.any
    (fun d => d.original_filename == fileName && !(d.status == DocStatus.failed))

/-- The `disabled` flag of a browsed file's selection checkbox. -/
def fileCheckboxDisabled (existingDocuments : List DocumentR) (f : BrowseFileR) : Bool :=
  isFileInSystem existingDocuments f.name

/-- `selectAll`: toggles between selecting the paths of all importable
(not-in-system) files and clearing the selection. -/
def selectAll (existingDocuments : List DocumentR) (browseFiles : List BrowseFileR)
    (selectedFiles : List String) : List String :=
  let importable := browseFiles.filter (fun f => !(isFileInSystem existingDocuments f.name))
  if selectedFiles.length = importable.length ∧ importable.length > 0 then []
  else importable.map (fun f => f.path)

/-- The browser state `loadFolder` touches. -/
structure BrowseStateR where
  browsePath : String
  browseFolders : List BrowseFolderR
  browseFiles : List BrowseFileR
  browseLoading : Bool
  browseError : String
  selectedFiles : List String
  importingFiles : List String
deriving DecidableEq, Repr

/-- Outcome of the `/api/yandex/browse` request. -/
inductive LoadResult
  | netError
  | httpError (detail : String)
  | ok (folders : List BrowseFolderR) (files : List BrowseFileR)
deriving DecidableEq, Repr

/-- `loadFolder`: picks the source's stored credential, falling back to the
in-flow one (`source.oauth_token || authToken`, absence modelled as the
empty string); without a credential it returns immediately.  Otherwise it
clears error, listings and selection, fetches, and either installs the new
listing and path or records the error. -/
def loadFolder (bs : BrowseStateR) (sourceToken authToken : String) (path : String)
    (r : LoadResult) : BrowseStateR :=
  if (if sourceToken ≠ "" then sourceToken else authToken) = "" then bs
  else
    match r with
    | LoadResult.ok folders files =>
      ⟨path, folders, files, false, "", [], bs.importingFiles⟩
    | LoadResult.httpError detail =>
      ⟨bs.browsePath, [], [], false,
        (if detail = "" then "Ошибка загрузки" else detail), [], bs.importingFiles⟩
    | LoadResult.netError =>
      ⟨bs.browsePath, [], [], false, "Не удалось загрузить", [], bs.importingFiles⟩

/-- Outcome of one `/api/yandex/import-file` request. -/
inductive ImportOutcome
  | noToken
  | httpFail
  | ok (documentId : Nat) (filename : String)
deriving DecidableEq, Repr

/-- The state threaded through a batch import: the shared document list
(via `onDocumentUploaded` / `handleDocumentUploaded`), the importing-file
marks, and the ordered trace of issued import requests. -/
structure ImportState where
  documents : List DocumentR
  importingFiles : List String
  requests : List String
deriving DecidableEq, Repr

/-- The document registered for a completed import
(`handleDocumentUploaded` prepends it). -/
def importedDoc (documentId : Nat) (filename : String) : DocumentR :=
  ⟨documentId, filename, filename, DocStatus.processing, none, none, none, none, none, ""⟩

/-- `importSingleFile`: without a token it is a no-op; otherwise it marks
the path as importing, issues the request, registers the new document on
success (a truthy `document_id`), and clears the importing mark. -/
def importSingleFile (st : ImportState) (file : BrowseFileR) (outcome : ImportOutcome) :
    ImportState :=
  match outcome with
  | ImportOutcome.noToken => st
  | ImportOutcome.httpFail =>
    let during := if st.importingFiles.contains file.path then st.importingFiles
      else st.importingFiles ++ [file.path]
    ⟨st.documents, during.filter (fun p => p ≠ file.path), st.requests ++ [file.path]⟩
  | ImportOutcome.ok documentId filename =>
    let during := if st.importingFiles.contains file.path then st.importingFiles
      else st.importingFiles ++ [file.path]
    let docs := if documentId ≠ 0 then importedDoc documentId filename :: st.documents
      else st.documents
    ⟨docs, during.filter (fun p => p ≠ file.path), st.requests ++ [file.path]⟩

/-- The files `importSelected` iterates over, in listing order. -/
def filesToImport (browseFiles : List BrowseFileR) (selectedFiles : List String) :
    List BrowseFileR :=
  browseFiles.filter (fun f => selectedFiles.contains f.path)

/-- `importSelected`: awaits `importSingleFile` for each selected file in
listing order (each import's effects are visible to the next one), then
clears the selection unconditionally.  Returns the final shared state and
the final selection. -/
def importSelected (st : ImportState) (browseFiles : List BrowseFileR)
    (selectedFiles : List String) (outcomes : BrowseFileR → ImportOutcome) :
    ImportState × List String :=
  ((filesToImport browseFiles selectedFiles).foldl
      (fun s f => importSingleFile s f (outcomes f)) st,
   [])

/-- The documents registered by a run of imports, newest first. -/
def registeredDocs (files : List BrowseFileR) (outcomes : BrowseFileR → ImportOutcome) :
    List DocumentR :=
  (files.filterMap (fun f =>
    match outcomes f with
    | ImportOutcome.ok documentId filename =>
      if documentId ≠ 0 then some (importedDoc documentId filename) else none
    | _ => none)).reverse

/-- The import requests issued by a run of imports, in order. -/
def requestedPaths (files : List BrowseFileR) (outcomes : BrowseFileR → ImportOutcome) :
    List String :=
  files.filterMap (fun f =>
    match outcomes f with
    | ImportOutcome.noToken => none
    | _ => some f.path)

/-! ## Upload pre-filter (`UploadZone.tsx`, `isSupported` / `handleFiles`) -/

/-- Supported document extensions. -/
def SUPPORTED_EXTENSIONS : List String := [".pdf", ".docx", ".xlsx", ".txt"]

/-- Supported archive extensions. -/
def ARCHIVE_EXTENSIONS : List String := [".zip", ".rar"]

/-- All accepted extensions. -/
def ALL_EXTENSIONS : List String := SUPPORTED_EXTENSIONS ++ ARCHIVE_EXTENSIONS

/-- `String.prototype.split` with an arbitrary single-character
separator. -/
def splitOnChar (sep : Char) : List Char → List (List Char)
  | [] => [[]]
  | c :: rest =>
    if c = sep then [] :: splitOnChar sep rest
    else
      match splitOnChar sep rest with
      | [] => [[c]]
      | l :: ls => (c :: l) :: ls

/-- `filename.toLowerCase().split(".").pop()`: the lower-cased text after
the last dot (the whole name when there is no dot). -/
def lastExt (filename : String) : String :=
  ((splitOnChar '.' (filename.data.map Char.toLower)).map String.mk).getLastD ""

/-- `isSupported`: the extension after the last dot is in the accepted
set; an empty extension is falsy. -/
def isSupported (filename : String) : Bool :=
  let ext := lastExt filename
  if ext = "" then false else ALL_EXTENSIONS.contains ("." ++ ext)

/-- `isArchive`: same with the archive set only. -/
def isArchive (filename : String) : Bool :=
  let ext := lastExt filename
  if ext = "" then false else ARCHIVE_EXTENSIONS.contains ("." ++ ext)

/-- Outcome of the upload request issued by `handleFiles`. -/
inductive UploadResponse
  | netError (message : String)
  | notOk (detail : String)
  | okSingle (documentId : Nat)
  | okBatch (results : List (Bool × Nat × String))
deriving DecidableEq, Repr

/-- Result of a `handleFiles` run: the status banner, the file names sent
per request, and the documents registered via `onDocumentUploaded`. -/
structure HandleFilesResult where
  uploadStatus : Option (Bool × String)
  requests : List (List String)
  uploadedDocs : List DocumentR
  isUploading : Bool
deriving DecidableEq, Repr

/-- A document as registered by the single-file upload branch. -/
def uploadedDocOf (documentId : Nat) (filename : String) : DocumentR :=
  ⟨documentId, filename, filename, DocStatus.processing, none, none, none, none, none, ""⟩

/-- `handleFiles` (file names only; the claim concerns which files reach a
request): filter the batch through `isSupported`; with no valid file set
the unsupported-formats error and stop; a single non-archive file goes to
the single upload endpoint, anything else to the batch endpoint.  Response
constructors that the respective endpoint never produces (`okBatch` for the
single branch, `okSingle` for the batch branch) are unreachable and
modelled conservatively. -/
def handleFiles (files : List String) (resp : UploadResponse) : HandleFilesResult :=
  let validFiles := files.filter isSupported
  if validFiles = [] then
    ⟨some (false, "Поддерживаемые форматы: PDF, Word, Excel, TXT, ZIP, RAR"), [], [], false⟩
  else if validFiles.length = 1 ∧ isArchive (validFiles.headD "") = false then
    match resp with
    | UploadResponse.okSingle documentId =>
      ⟨some (true, "Документ загружен! Обработка..."), [validFiles],
        [uploadedDocOf documentId (validFiles.headD "")], false⟩
    | UploadResponse.notOk detail =>
      ⟨some (false, if detail = "" then "Upload failed" else detail), [validFiles], [], false⟩
    | UploadResponse.netError message =>
      ⟨some (false, message), [validFiles], [], false⟩
    | UploadResponse.okBatch _ =>
      ⟨some (true, "Документ загружен! Обработка..."), [validFiles], [], false⟩
  else
    match resp with
    | UploadResponse.okBatch results =>
      let succeeded := results.filter (fun r => r.1)
      ⟨some (if succeeded.length > 0 then (true, "Загружено. Обработка...")
          else (false, "Не удалось загрузить файлы")),
        [validFiles],
        succeeded.map (fun r => uploadedDocOf r.2.1 r.2.2), false⟩
    | UploadResponse.notOk detail =>
      ⟨some (false, if detail = "" then "Batch upload failed" else detail), [validFiles], [], false⟩
    | UploadResponse.netError message =>
      ⟨some (false, message), [validFiles], [], false⟩
    | UploadResponse.okSingle _ =>
      ⟨some (false, "Не удалось загрузить файлы"), [validFiles], [], false⟩

/-! ## Theorems -/

theorem splitLines_cons (c : Char) (rest : List Char) :
    splitLines (c :: rest) =
      if c = '\n' then [] :: splitLines rest
      else
        match splitLines rest with
        | [] => [[c]]
        | l :: ls => (c :: l) :: ls := rfl

theorem splitLines_ne_nil (l : List Char) : splitLines l ≠ [] := by
  cases l with
  | nil => simp [splitLines]
  | cons c rest =>
    rw [splitLines_cons]
    by_cases h : c = '\n'
    · simp [h]
    · simp only [h, if_false]
      cases splitLines rest <;> simp

theorem splitLines_record (r : List Char) (h : '\n' ∉ r) (rest : List Char) :
    splitLines (r ++ '\n' :: rest) = r :: splitLines rest := by
  induction r with
  | nil => simp [splitLines_cons]
  | cons c cr ih =>
    have hc : c ≠ '\n' := by
      intro hc; exact h (by simp [hc])
    have hcr : '\n' ∉ cr := by
      intro hm; exact h (by simp [hm])
    rw [List.cons_append, splitLines_cons, if_neg hc, ih hcr]

theorem processLine_nil : processLine [] = none := by
  simp [processLine, dataHeader]

theorem processChunk_records (recs : List (List Char))
    (h : ∀ r ∈ recs, '\n' ∉ r) :
    processChunk (chunkOfRecords recs) = recs.filterMap processLine := by
  unfold processChunk chunkOfRecords
  induction recs with
  | nil => simp [splitLines, processLine_nil]
  | cons r rs ih =>
    have hr : '\n' ∉ r := h r (by simp)
    have hrs : ∀ x ∈ rs, '\n' ∉ x := fun x hx => h x (by simp [hx])
    have hjoin : ((r :: rs).map (fun r => r ++ ['\n'])).flatten
        = r ++ '\n' :: (rs.map (fun r => r ++ ['\n'])).flatten := by
      simp
    rw [hjoin, splitLines_record r hr, List.filterMap_cons]
    cases hpl : processLine r with
    | none => simpa [hpl] using ih hrs
    | some v => simpa [hpl] using ih hrs

theorem filterMap_flatten_comm {α β : Type} (f : α → Option β) (ls : List (List α)) :
    (ls.map (List.filterMap f)).flatten = ls.flatten.filterMap f := by
  induction ls with
  | nil => simp
  | cons l ls ih =>
    rw [List.map_cons, List.flatten_cons, List.flatten_cons, List.filterMap_append, ih]

/-- C1 (amended): the decoder is invariant under chunk splits that are
aligned to record boundaries: grouping the same delimiter-terminated
records into chunks in any way yields the same decoded sequence as
delivering them in a single chunk. -/
theorem decoder_record_aligned_invariance (parts : List (List (List Char)))
    (h : ∀ r ∈ parts.flatten, '\n' ∉ r) :
    decodeStream (parts.map chunkOfRecords) =
      decodeStream [chunkOfRecords parts.flatten] := by
  unfold decodeStream
  rw [List.map_map]
  have hstep : ∀ p ∈ parts, processChunk (chunkOfRecords p) = p.filterMap processLine := by
    intro p hp
    exact processChunk_records p (fun r hr => h r (List.mem_flatten_of_mem hp hr))
  calc (parts.map (processChunk ∘ chunkOfRecords)).flatten
      = (parts.map (fun p => p.filterMap processLine)).flatten := by
        apply congrArg List.flatten
        apply List.map_congr_left
        intro p hp
        simpa using hstep p hp
    _ = parts.flatten.filterMap processLine := filterMap_flatten_comm processLine parts
    _ = ([chunkOfRecords parts.flatten].map processChunk).flatten := by
        rw [List.map_singleton]
        rw [processChunk_records parts.flatten h]
        simp

/-- C1 witness for the amended invariance theorem: two records grouped as
two chunks decode the same as in one chunk. -/
theorem decoder_record_aligned_invariance_witness :
    decodeStream ((([[['d'], ['e']]] : List (List (List Char))).map chunkOfRecords)) =
      decodeStream [chunkOfRecords ([[['d'], ['e']]] : List (List (List Char))).flatten] :=
  decoder_record_aligned_invariance [[['d'], ['e']]] (by decide)

/-- C1 counterexample: the claim as stated is false.  The framed event
`data: \x7b"done":true\x7d\n` delivered whole decodes to one frame, but the
same bytes split mid-frame at an arbitrary chunk boundary decode to no
frame at all: the decoder keeps no buffer across chunks, so both fragments
are discarded. -/
theorem decoder_chunk_split_counterexample :
    "data: \x7b\"done\":t" ++ "rue\x7d\n" = "data: \x7b\"done\":true\x7d\n" ∧
    decodeStream ["data: \x7b\"done\":true\x7d\n"] = [[("done", JVal.bool true)]] ∧
    decodeStream ["data: \x7b\"done\":t", "rue\x7d\n"] = [] := by
  refine ⟨by decide, by decide, by decide⟩

/-- C9: a send while the context is busy, or with an empty or
whitespace-only question, is a no-op: the state is returned unchanged, no
request is issued and no persistence call is fired. -/
theorem send_validation_noop (st : ChatState) (hasTarget : Bool) (input : String)
    (uid aid : Nat) (resp : ChatResponse)
    (h : jsTrim input = "" ∨ st.isLoading = true) :
    handleSubmit st hasTarget input uid aid resp = ⟨st, false, []⟩ := by
  unfold handleSubmit
  rw [if_pos h]

/-- C9 witness: sending while busy leaves the state untouched, and a
whitespace-only question does too. -/
theorem send_validation_noop_witness :
    handleSubmit ⟨[⟨1, Role.user, "hi"⟩], some 3, true, none⟩ true "query" 8 9
        (ChatResponse.ok (some 4) [deltaFrame "x"]) =
      ⟨⟨[⟨1, Role.user, "hi"⟩], some 3, true, none⟩, false, []⟩ ∧
    handleSubmit ⟨[], none, false, none⟩ true "   " 8 9 (ChatResponse.ok none []) =
      ⟨⟨[], none, false, none⟩, false, []⟩ :=
  ⟨send_validation_noop _ _ _ _ _ _ (Or.inr rfl),
   send_validation_noop _ _ _ _ _ _ (Or.inl (by decide))⟩

/-- C2: the code keeps the blank in-progress assistant message after an
ErrorFrame.  The catch block inspects the stale `messages` array captured
before the send (whose last entry here is the previous, non-empty assistant
reply), so its guard never matches the just-appended empty assistant
message, which therefore stays in the conversation. -/
theorem error_keeps_blank_assistant :
    (handleSubmit ⟨[⟨1, Role.user, "hi"⟩, ⟨2, Role.assistant, "hello"⟩], some 7, false, none⟩
        true "q" 10 11
        (ChatResponse.ok none [[("error", JVal.str "boom")]])).state =
      ⟨[⟨1, Role.user, "hi"⟩, ⟨2, Role.assistant, "hello"⟩,
        ⟨10, Role.user, "q"⟩, ⟨11, Role.assistant, ""⟩], some 7, false, some "boom"⟩ := by
  decide

theorem append_ne_empty_left (a b : String) (h : a ≠ "") : a ++ b ≠ "" := by
  intro he
  apply h
  have hd := congrArg String.data he
  rw [String.data_append] at hd
  have ha : a.data = [] := (List.append_eq_nil.mp hd).1
  cases a with
  | mk l =>
    cases ha
    rfl

theorem updAssistant_append (pre : List Msg) (aid : Nat) (f : String → String) (c : String)
    (hfresh : ∀ m ∈ pre, m.id ≠ aid) :
    updAssistant aid f (pre ++ [⟨aid, Role.assistant, c⟩]) =
      pre ++ [⟨aid, Role.assistant, f c⟩] := by
  unfold updAssistant
  rw [List.map_append]
  congr 1
  · have hid : ∀ m ∈ pre,
        (if m.id = aid then (⟨m.id, m.role, f m.content⟩ : Msg) else m) = id m :=
      fun m hm => if_neg (hfresh m hm)
    rw [List.map_congr_left hid, List.map_id]
  · simp

theorem applyFrame_thinking (aid : Nat) (sid : Option Nat) (msgs : List Msg) :
    applyFrame aid sid msgs thinkingFrame =
      ⟨updAssistant aid (fun _ => placeholderText) msgs, none, []⟩ := rfl

theorem applyFrame_delta (aid : Nat) (sid : Option Nat) (msgs : List Msg) (d : String) :
    applyFrame aid sid msgs (deltaFrame d) =
      ⟨if d = "" then msgs
        else updAssistant aid (fun old => if old = placeholderText then d else old ++ d) msgs,
       none, []⟩ := by
  by_cases hd : d = ""
  · simp only [hd, if_pos]
    rfl
  · have hbeq : (d == "") = false := by
      simpa using hd
    simp only [if_neg hd]
    simp [applyFrame, deltaFrame, getField, jTruthy, jToString, hbeq]

theorem applyFrame_done_msgs (aid : Nat) (sid : Option Nat) (msgs : List Msg) :
    (applyFrame aid sid msgs doneFrame).msgs = msgs := rfl

theorem applyFrame_done_thrown (aid : Nat) (sid : Option Nat) (msgs : List Msg) :
    (applyFrame aid sid msgs doneFrame).thrown = none := rfl

theorem runFrames_nil (aid : Nat) (sid : Option Nat) (msgs : List Msg) :
    runFrames aid sid msgs [] = ⟨msgs, none, []⟩ := rfl

theorem runFrames_cons (aid : Nat) (sid : Option Nat) (msgs : List Msg)
    (obj : List (String × JVal)) (rest : List (List (String × JVal))) :
    runFrames aid sid msgs (obj :: rest) =
      (match (applyFrame aid sid msgs obj).thrown with
       | some e =>
         (⟨(applyFrame aid sid msgs obj).msgs, some e,
           (applyFrame aid sid msgs obj).saves⟩ : FrameStep)
       | none =>
         ⟨(runFrames aid sid (applyFrame aid sid msgs obj).msgs rest).msgs,
          (runFrames aid sid (applyFrame aid sid msgs obj).msgs rest).thrown,
          (applyFrame aid sid msgs obj).saves ++
            (runFrames aid sid (applyFrame aid sid msgs obj).msgs rest).saves⟩) := rfl

theorem runFrames_cons_clean (aid : Nat) (sid : Option Nat) (msgs msgs2 : List Msg)
    (obj : List (String × JVal)) (rest : List (List (String × JVal)))
    (h : applyFrame aid sid msgs obj = ⟨msgs2, none, []⟩) :
    runFrames aid sid msgs (obj :: rest) = runFrames aid sid msgs2 rest := by
  rw [runFrames_cons, h]
  simp

theorem runFrames_deltas (aid : Nat) (sid : Option Nat) (ds : List String)
    (tail : List (List (String × JVal))) :
    ∀ (pre : List Msg) (c : String), (∀ m ∈ pre, m.id ≠ aid) →
    runFrames aid sid (pre ++ [⟨aid, Role.assistant, c⟩]) (ds.map deltaFrame ++ tail) =
      runFrames aid sid (pre ++ [⟨aid, Role.assistant, contentAfter c ds⟩]) tail := by
  induction ds with
  | nil => intro pre c _; simp [contentAfter]
  | cons d ds ih =>
    intro pre c hfresh
    rw [List.map_cons, List.cons_append]
    by_cases hd : d = ""
    · rw [runFrames_cons_clean aid sid _ (pre ++ [⟨aid, Role.assistant, c⟩]) _ _
        (by rw [applyFrame_delta, if_pos hd])]
      rw [ih pre c hfresh]
      rw [show contentAfter c (d :: ds) = contentAfter c ds by rw [contentAfter, if_pos hd]]
    · rw [runFrames_cons_clean aid sid _
        (pre ++ [⟨aid, Role.assistant, if c = placeholderText then d else c ++ d⟩]) _ _
        (by rw [applyFrame_delta, if_neg hd,
          updAssistant_append pre aid _ c hfresh])]
      rw [ih pre _ hfresh]
      rw [show contentAfter c (d :: ds)
          = contentAfter (if c = placeholderText then d else c ++ d) ds
        by rw [contentAfter, if_neg hd]]

theorem contentAfter_append (ds : List String) :
    ∀ c : String, (∀ k, k < ds.length → c ++ strJoin (ds.take k) ≠ placeholderText) →
    contentAfter c ds = c ++ strJoin ds := by
  induction ds with
  | nil => intro c _; simp [contentAfter, strJoin]
  | cons d ds ih =>
    intro c H
    have hc : c ≠ placeholderText := by
      have h0 := H 0 (by simp)
      simpa [strJoin] using h0
    by_cases hd : d = ""
    · rw [contentAfter, if_pos hd]
      have H2 : ∀ k, k < ds.length → c ++ strJoin (ds.take k) ≠ placeholderText := by
        intro k hk
        have := H (k + 1) (by simpa using Nat.succ_lt_succ hk)
        simpa [List.take_succ_cons, strJoin, hd] using this
      rw [ih c H2, hd]
      simp [strJoin]
    · rw [contentAfter, if_neg hd, if_neg hc]
      have H2 : ∀ k, k < ds.length → (c ++ d) ++ strJoin (ds.take k) ≠ placeholderText := by
        intro k hk
        have := H (k + 1) (by simpa using Nat.succ_lt_succ hk)
        rw [List.take_succ_cons] at this
        simpa [strJoin, String.append_assoc] using this
      rw [ih (c ++ d) H2]
      rw [show strJoin (d :: ds) = d ++ strJoin ds from rfl, String.append_assoc]

theorem contentAfter_placeholder (ds : List String)
    (H : ∀ k, k < ds.length → strJoin (ds.take k) ≠ placeholderText) :
    contentAfter placeholderText ds =
      if strJoin ds = "" then placeholderText else strJoin ds := by
  induction ds with
  | nil => simp [contentAfter, strJoin]
  | cons d ds ih =>
    by_cases hd : d = ""
    · rw [contentAfter, if_pos hd]
      have H2 : ∀ k, k < ds.length → strJoin (ds.take k) ≠ placeholderText := by
        intro k hk
        have := H (k + 1) (by simpa using Nat.succ_lt_succ hk)
        simpa [List.take_succ_cons, strJoin, hd] using this
      rw [ih H2]
      have hjoin : strJoin (d :: ds) = strJoin ds := by
        rw [show strJoin (d :: ds) = d ++ strJoin ds from rfl, hd]
        simp
      rw [hjoin]
    · rw [contentAfter, if_neg hd, if_pos rfl]
      have H2 : ∀ k, k < ds.length → d ++ strJoin (ds.take k) ≠ placeholderText := by
        intro k hk
        have := H (k + 1) (by simpa using Nat.succ_lt_succ hk)
        simpa [List.take_succ_cons, strJoin] using this
      rw [contentAfter_append ds d H2]
      have hne : strJoin (d :: ds) ≠ "" := by
        rw [show strJoin (d :: ds) = d ++ strJoin ds from rfl]
        exact append_ne_empty_left d _ hd
      rw [show strJoin (d :: ds) = d ++ strJoin ds from rfl] at hne ⊢
      rw [if_neg hne]

theorem runFrames_scenario (aid : Nat) (sid : Option Nat) (pre : List Msg)
    (deltas : List String) (hfresh : ∀ m ∈ pre, m.id ≠ aid) :
    ∃ sv, runFrames aid sid (pre ++ [⟨aid, Role.assistant, ""⟩])
        (thinkingFrame :: (deltas.map deltaFrame ++ [doneFrame])) =
      ⟨pre ++ [⟨aid, Role.assistant, contentAfter placeholderText deltas⟩], none, sv⟩ := by
  rw [runFrames_cons_clean aid sid _ (pre ++ [⟨aid, Role.assistant, placeholderText⟩]) _ _
    (by rw [applyFrame_thinking, updAssistant_append pre aid _ _ hfresh])]
  rw [runFrames_deltas aid sid deltas [doneFrame] pre placeholderText hfresh]
  refine ⟨(applyFrame aid sid
    (pre ++ [⟨aid, Role.assistant, contentAfter placeholderText deltas⟩]) doneFrame).saves ++ [], ?_⟩
  rw [runFrames_cons, applyFrame_done_thrown, applyFrame_done_msgs, runFrames_nil]

/-- C3 (amended): for a response of the shape `StatusUpdate("thinking")`,
then content deltas, then `DoneFrame`, the first non-empty delta replaces
the placeholder and subsequent deltas append, so the final assistant text
is the concatenation of the delta texts and the busy flag ends false —
provided some delta is non-empty and no partial concatenation of the
deltas equals the placeholder text itself (the code detects the
placeholder by comparing the accumulated content with the literal
`"Analyzing documents..."`). -/
theorem placeholder_replacement (st : ChatState) (input : String) (uid aid : Nat)
    (newSid : Option Nat) (deltas : List String)
    (hbusy : st.isLoading = false)
    (hinput : jsTrim input ≠ "")
    (hfresh : ∀ m ∈ st.messages, m.id ≠ aid)
    (huid : uid ≠ aid)
    (hjoin : strJoin deltas ≠ "")
    (hph : ∀ k, k < deltas.length → strJoin (deltas.take k) ≠ placeholderText) :
    (handleSubmit st true input uid aid
        (ChatResponse.ok newSid
          (thinkingFrame :: (deltas.map deltaFrame ++ [doneFrame])))).state.messages =
      st.messages ++ [⟨uid, Role.user, jsTrim input⟩, ⟨aid, Role.assistant, strJoin deltas⟩] ∧
    (handleSubmit st true input uid aid
        (ChatResponse.ok newSid
          (thinkingFrame :: (deltas.map deltaFrame ++ [doneFrame])))).state.isLoading = false := by
  have hpre : ∀ m ∈ st.messages ++ [(⟨uid, Role.user, jsTrim input⟩ : Msg)], m.id ≠ aid := by
    intro m hm
    rcases List.mem_append.mp hm with hm | hm
    · exact hfresh m hm
    · rcases List.mem_singleton.mp hm with rfl
      exact huid
  obtain ⟨sv, hrun⟩ := runFrames_scenario aid (mergeSessionId newSid st.sessionId)
    (st.messages ++ [⟨uid, Role.user, jsTrim input⟩]) deltas hpre
  have hca : contentAfter placeholderText deltas = strJoin deltas := by
    rw [contentAfter_placeholder deltas hph, if_neg hjoin]
  rw [hca] at hrun
  unfold handleSubmit
  rw [if_neg (by simp [hinput, hbusy])]
  rw [if_neg (by simp)]
  simp only []
  rw [List.append_assoc st.messages [⟨uid, Role.user, jsTrim input⟩] [⟨aid, Role.assistant, ""⟩]]
    at hrun ⊢
  rw [hrun]
  exact ⟨by simp, rfl⟩

/-- C3 witness: the spec's own scenario — deltas `"The value"` and
`" is 42."` end with assistant text `"The value is 42."` and a cleared
busy flag. -/
theorem placeholder_replacement_witness :
    (handleSubmit ⟨[], none, false, none⟩ true "What is X?" 1 2
        (ChatResponse.ok (some 7)
          (thinkingFrame :: (["The value", " is 42."].map deltaFrame ++ [doneFrame])))).state.messages =
      ([] : List Msg) ++ [⟨1, Role.user, jsTrim "What is X?"⟩,
        ⟨2, Role.assistant, strJoin ["The value", " is 42."]⟩] ∧
    (handleSubmit ⟨[], none, false, none⟩ true "What is X?" 1 2
        (ChatResponse.ok (some 7)
          (thinkingFrame :: (["The value", " is 42."].map deltaFrame ++ [doneFrame])))).state.isLoading = false :=
  placeholder_replacement ⟨[], none, false, none⟩ "What is X?" 1 2 (some 7)
    ["The value", " is 42."] rfl (by decide) (by simp) (by decide) (by decide) (by decide)

/-- C3 counterexample: the claim quantified over all delta sequences is
false.  When the first delta text happens to equal the placeholder literal
`"Analyzing documents..."`, the second delta replaces it instead of
appending, so the final text is `" is 42."` rather than the concatenation
of the deltas. -/
theorem placeholder_replacement_counterexample :
    (handleSubmit ⟨[], none, false, none⟩ true "What is X?" 1 2
        (ChatResponse.ok (some 7)
          (thinkingFrame ::
            (["Analyzing documents...", " is 42."].map deltaFrame ++ [doneFrame])))).state.messages =
      [⟨1, Role.user, "What is X?"⟩, ⟨2, Role.assistant, " is 42."⟩] ∧
    strJoin ["Analyzing documents...", " is 42."] = "Analyzing documents... is 42." ∧
    (" is 42." : String) ≠ "Analyzing documents... is 42." := by
  refine ⟨by decide, by decide, by decide⟩

/-- C4: a reconciliation poll whose transport fails or whose response is
not ok leaves the document records (in both polling components) completely
unchanged — a failed poll can never flip a document to failed status. -/
theorem poll_failure_leaves_documents_unchanged
    (docs : List DocumentR) (st : UploadPollState) (docId : Nat) :
    pollDocumentTick docs PollResponse.netError = docs ∧
    pollDocumentTick docs PollResponse.notOk = docs ∧
    uploadPollTick st docId PollResponse.netError = st ∧
    uploadPollTick st docId PollResponse.notOk = st :=
  ⟨rfl, rfl, rfl, rfl⟩

theorem mapLookup_cons (p : String × ChatEntry) (m : List (String × ChatEntry)) (y : String) :
    mapLookup (p :: m) y = if p.1 = y then some p.2 else mapLookup m y := by
  unfold mapLookup
  by_cases h : p.1 = y
  · rw [List.find?_cons_of_pos _ (by simpa using h), if_pos h]
  · rw [List.find?_cons_of_neg _ (by simpa using h), if_neg h]

theorem mapLookup_filter_self (m : List (String × ChatEntry)) (k : String) :
    mapLookup (m.filter (fun p => p.1 ≠ k)) k = none := by
  unfold mapLookup
  have hnone : List.find? (fun p => p.1 == k) (m.filter (fun p => p.1 ≠ k)) = none := by
    apply List.find?_eq_none.mpr
    intro x hx
    have hmem := List.mem_filter.mp hx
    have hne : x.1 ≠ k := by simpa using hmem.2
    simpa using hne
  rw [hnone]

theorem mapLookup_filter_ne (m : List (String × ChatEntry)) (k y : String) (hy : y ≠ k) :
    mapLookup (m.filter (fun p => p.1 ≠ k)) y = mapLookup m y := by
  induction m with
  | nil => rfl
  | cons p m ih =>
    rw [List.filter_cons]
    by_cases hk : p.1 = k
    · rw [if_neg (by simpa using hk), ih, mapLookup_cons,
        if_neg (fun hpy : p.1 = y => hy (hpy ▸ hk ▸ rfl))]
    · rw [if_pos (by simpa using hk), mapLookup_cons, mapLookup_cons, ih]

/-- C5: deleting document `X` removes it from the document list and
discards exactly the conversation context keyed `String(X)`: the context
under `String(X)` is gone, and every other key (including the global one)
still maps to exactly what it mapped to before. -/
theorem delete_document_scoped (docs : List DocumentR) (m : List (String × ChatEntry))
    (docId : Nat) (y : String) (hy : y ≠ toString docId) :
    (∀ d ∈ (handleDeleteDocument docs m docId).1, d.id ≠ docId) ∧
    mapLookup (handleDeleteDocument docs m docId).2 (toString docId) = none ∧
    mapLookup (handleDeleteDocument docs m docId).2 y = mapLookup m y := by
  refine ⟨?_, mapLookup_filter_self m (toString docId),
    mapLookup_filter_ne m (toString docId) y hy⟩
  intro d hd
  have hmem := List.mem_filter.mp hd
  simpa using hmem.2

/-- C5 witness: the spec's scenario — deleting document 5 clears context
`"5"` and leaves the global context (and its three messages) untouched. -/
theorem delete_document_scoped_witness :
    mapLookup (handleDeleteDocument
        [⟨5, "a", "a", DocStatus.ready, none, none, none, none, none, ""⟩,
         ⟨6, "b", "b", DocStatus.ready, none, none, none, none, none, ""⟩]
        [("5", ⟨[⟨1, Role.user, "q1"⟩, ⟨2, Role.assistant, "a1"⟩, ⟨3, Role.user, "q2"⟩], some 1⟩),
         ("6", ⟨[⟨4, Role.user, "x"⟩], some 2⟩),
         ("__global__", ⟨[⟨9, Role.user, "g"⟩], some 3⟩)] 5).2 "5" = none ∧
    mapLookup (handleDeleteDocument
        [⟨5, "a", "a", DocStatus.ready, none, none, none, none, none, ""⟩,
         ⟨6, "b", "b", DocStatus.ready, none, none, none, none, none, ""⟩]
        [("5", ⟨[⟨1, Role.user, "q1"⟩, ⟨2, Role.assistant, "a1"⟩, ⟨3, Role.user, "q2"⟩], some 1⟩),
         ("6", ⟨[⟨4, Role.user, "x"⟩], some 2⟩),
         ("__global__", ⟨[⟨9, Role.user, "g"⟩], some 3⟩)] 5).2 "__global__" =
      mapLookup
        [("5", ⟨[⟨1, Role.user, "q1"⟩, ⟨2, Role.assistant, "a1"⟩, ⟨3, Role.user, "q2"⟩], some 1⟩),
         ("6", ⟨[⟨4, Role.user, "x"⟩], some 2⟩),
         ("__global__", ⟨[⟨9, Role.user, "g"⟩], some 3⟩)] "__global__" :=
  ⟨(delete_document_scoped _ _ 5 "__global__" (by decide)).2.1,
   (delete_document_scoped _ _ 5 "__global__" (by decide)).2.2⟩

/-- C6: a browsed file whose name matches a known non-failed document is
excluded from "select all" (every selected path belongs to a file that is
not in the system) and its selection control is disabled; a name matching
only failed documents is not flagged as in the system and so stays
importable. -/
theorem dedup_disables_and_excludes (docs : List DocumentR) (files : List BrowseFileR)
    (sel : List String) (f : BrowseFileR) (hf : f ∈ files)
    (hin : isFileInSystem docs f.name = true) :
    fileCheckboxDisabled docs f = true ∧
    (∀ p ∈ selectAll docs files sel,
      ∃ g, g ∈ files ∧ g.path = p ∧ isFileInSystem docs g.name = false) ∧
    (∀ name, (∀ d ∈ docs, d.original_filename = name → d.status = DocStatus.failed) →
      isFileInSystem docs name = false) := by
  refine ⟨hin, ?_, ?_⟩
  · intro p hp
    simp only [selectAll] at hp
    split_ifs at hp with hcond
    · simp at hp
    · obtain ⟨g, hg, rfl⟩ := List.mem_map.mp hp
      have hmem := List.mem_filter.mp hg
      exact ⟨g, hmem.1, rfl, by simpa using hmem.2⟩
  · intro name hall
    cases htest : isFileInSystem docs name with
    | false => rfl
    | true =>
      exfalso
      unfold isFileInSystem at htest
      obtain ⟨d, hd, hpred⟩ := List.any_eq_true.mp htest
      have hsplit := (Bool.and_eq_true _ _).mp hpred
      have h1 : d.original_filename = name := by simpa using hsplit.1
      have h2 : ¬ (d.status = DocStatus.failed) := by simpa using hsplit.2
      exact h2 (hall d hd h1)

/-- C6 witness: with `a.pdf` known ready and `b.pdf` known failed, the
browsed file `a.pdf` is disabled, `select all` selects only not-in-system
paths, and `b.pdf` is not counted as in the system. -/
theorem dedup_disables_and_excludes_witness :
    fileCheckboxDisabled
      [⟨1, "a.pdf", "a.pdf", DocStatus.ready, none, none, none, none, none, ""⟩,
       ⟨2, "b.pdf", "b.pdf", DocStatus.failed, none, none, none, none, none, ""⟩]
      ⟨"a.pdf", "/a.pdf", 10, "", ".pdf"⟩ = true ∧
    isFileInSystem
      [⟨1, "a.pdf", "a.pdf", DocStatus.ready, none, none, none, none, none, ""⟩,
       ⟨2, "b.pdf", "b.pdf", DocStatus.failed, none, none, none, none, none, ""⟩]
      "b.pdf" = false :=
  ⟨(dedup_disables_and_excludes _
      [⟨"a.pdf", "/a.pdf", 10, "", ".pdf"⟩, ⟨"b.pdf", "/b.pdf", 20, "", ".pdf"⟩] []
      ⟨"a.pdf", "/a.pdf", 10, "", ".pdf"⟩ (by decide) (by decide)).1,
   (dedup_disables_and_excludes _
      [⟨"a.pdf", "/a.pdf", 10, "", ".pdf"⟩, ⟨"b.pdf", "/b.pdf", 20, "", ".pdf"⟩] []
      ⟨"a.pdf", "/a.pdf", 10, "", ".pdf"⟩ (by decide) (by decide)).2.2 "b.pdf"
    (by decide)⟩

theorem foldl_import_requests (outcomes : BrowseFileR → ImportOutcome) :
    ∀ (fs : List BrowseFileR) (st : ImportState),
    (fs.foldl (fun s f => importSingleFile s f (outcomes f)) st).requests =
      st.requests ++ requestedPaths fs outcomes := by
  intro fs
  induction fs with
  | nil => intro st; simp [requestedPaths]
  | cons f fs ih =>
    intro st
    rw [List.foldl_cons, ih]
    cases hoc : outcomes f with
    | noToken => simp [requestedPaths, List.filterMap_cons, hoc, importSingleFile]
    | httpFail => simp [requestedPaths, List.filterMap_cons, hoc, importSingleFile]
    | ok i n => simp [requestedPaths, List.filterMap_cons, hoc, importSingleFile]

theorem foldl_import_docs (outcomes : BrowseFileR → ImportOutcome) :
    ∀ (fs : List BrowseFileR) (st : ImportState),
    (fs.foldl (fun s f => importSingleFile s f (outcomes f)) st).documents =
      registeredDocs fs outcomes ++ st.documents := by
  intro fs
  induction fs with
  | nil => intro st; simp [registeredDocs]
  | cons f fs ih =>
    intro st
    rw [List.foldl_cons, ih]
    cases hoc : outcomes f with
    | noToken => simp [registeredDocs, List.filterMap_cons, hoc, importSingleFile]
    | httpFail => simp [registeredDocs, List.filterMap_cons, hoc, importSingleFile]
    | ok i n =>
      by_cases hi : i = 0
      · simp [registeredDocs, List.filterMap_cons, hoc, importSingleFile, hi]
      · simp [registeredDocs, List.filterMap_cons, hoc, importSingleFile, hi]

/-- C7: `importSelected` is a sequential fold over the selected files in
listing order.  The selection is cleared afterwards regardless of the
individual outcomes; the import requests are issued in listing order; and
after any prefix of `k` imports the shared document list already contains
every document registered by imports `1..k`, so the next import (and any
dedup check against the document list) sees them. -/
theorem importSelected_sequential (st : ImportState) (files : List BrowseFileR)
    (sel : List String) (outcomes : BrowseFileR → ImportOutcome) :
    (importSelected st files sel outcomes).2 = [] ∧
    (importSelected st files sel outcomes).1.requests =
      st.requests ++ requestedPaths (filesToImport files sel) outcomes ∧
    (importSelected st files sel outcomes).1.documents =
      registeredDocs (filesToImport files sel) outcomes ++ st.documents ∧
    (∀ k : Nat,
      (((filesToImport files sel).take k).foldl
          (fun s f => importSingleFile s f (outcomes f)) st).documents =
        registeredDocs ((filesToImport files sel).take k) outcomes ++ st.documents) :=
  ⟨rfl, foldl_import_requests outcomes _ st, foldl_import_docs outcomes _ st,
   fun _ => foldl_import_docs outcomes _ st⟩

/-- C8 (amended): when a credential is available, `loadFolder` clears the
selection together with the listings before fetching and leaves the
import-in-progress set untouched (the code never clears `importingFiles`);
a failed load ends with a non-empty error and empty listings, never the
previous path's contents; a successful load installs the new listing and
path with selection cleared. -/
theorem loadFolder_state (bs : BrowseStateR) (st at' p : String)
    (htok : ¬(st = "" ∧ at' = "")) :
    (∀ r, (loadFolder bs st at' p r).selectedFiles = [] ∧
      (loadFolder bs st at' p r).importingFiles = bs.importingFiles) ∧
    (∀ d, (loadFolder bs st at' p (LoadResult.httpError d)).browseError ≠ "" ∧
      (loadFolder bs st at' p (LoadResult.httpError d)).browseFolders = [] ∧
      (loadFolder bs st at' p (LoadResult.httpError d)).browseFiles = []) ∧
    ((loadFolder bs st at' p LoadResult.netError).browseError ≠ "" ∧
      (loadFolder bs st at' p LoadResult.netError).browseFolders = [] ∧
      (loadFolder bs st at' p LoadResult.netError).browseFiles = []) ∧
    (∀ folders files2, loadFolder bs st at' p (LoadResult.ok folders files2) =
      ⟨p, folders, files2, false, "", [], bs.importingFiles⟩) := by
  have htok2 : ¬ ((if st ≠ "" then st else at') = "") := by
    by_cases hst : st = ""
    · rw [if_neg (by simpa using hst)]
      exact fun h => htok ⟨hst, h⟩
    · rw [if_pos hst]
      exact hst
  refine ⟨?_, ?_, ?_, ?_⟩
  · intro r
    unfold loadFolder
    rw [if_neg htok2]
    cases r <;> exact ⟨rfl, rfl⟩
  · intro d
    unfold loadFolder
    rw [if_neg htok2]
    refine ⟨?_, rfl, rfl⟩
    show (if d = "" then "Ошибка загрузки" else d) ≠ ""
    by_cases hd : d = ""
    · rw [if_pos hd]; decide
    · rw [if_neg hd]; exact hd
  · unfold loadFolder
    rw [if_neg htok2]
    refine ⟨?_, rfl, rfl⟩
    show ("Не удалось загрузить" : String) ≠ ""
    decide
  · intro folders files2
    unfold loadFolder
    rw [if_neg htok2]

/-- C8 witness: with a source credential present, a navigation load clears
the selection, a transport failure shows an error, and a successful load
installs the listing — while the importing set persists throughout. -/
theorem loadFolder_state_witness :
    (loadFolder ⟨"/", [], [], false, "", ["/sel.pdf"], ["/import.pdf"]⟩ "tok" "" "/sub"
        LoadResult.netError).selectedFiles = [] ∧
    (loadFolder ⟨"/", [], [], false, "", ["/sel.pdf"], ["/import.pdf"]⟩ "tok" "" "/sub"
        LoadResult.netError).browseError ≠ "" ∧
    loadFolder ⟨"/", [], [], false, "", ["/sel.pdf"], ["/import.pdf"]⟩ "tok" "" "/sub"
        (LoadResult.ok [] []) = ⟨"/sub", [], [], false, "", [], ["/import.pdf"]⟩ :=
  ⟨((loadFolder_state ⟨"/", [], [], false, "", ["/sel.pdf"], ["/import.pdf"]⟩
      "tok" "" "/sub" (by decide)).1 LoadResult.netError).1,
   ((loadFolder_state ⟨"/", [], [], false, "", ["/sel.pdf"], ["/import.pdf"]⟩
      "tok" "" "/sub" (by decide)).2.2.1).1,
   (loadFolder_state ⟨"/", [], [], false, "", ["/sel.pdf"], ["/import.pdf"]⟩
      "tok" "" "/sub" (by decide)).2.2.2 [] []⟩

/-- C8 counterexample: the claim as stated is false — `loadFolder` does
not clear the import-in-progress set: after a successful navigation the
previously importing path is still marked. -/
theorem loadFolder_importing_not_cleared :
    (loadFolder ⟨"/", [], [], false, "", ["/sel.pdf"], ["/import.pdf"]⟩ "tok" "" "/sub"
        (LoadResult.ok [] [])).importingFiles = ["/import.pdf"] ∧
    (["/import.pdf"] : List String) ≠ [] :=
  ⟨rfl, by decide⟩

theorem handleFiles_requests_cases (fs : List String) (r : UploadResponse) :
    (handleFiles fs r).requests = [] ∨
    (handleFiles fs r).requests = [fs.filter isSupported] := by
  unfold handleFiles
  by_cases h1 : fs.filter isSupported = []
  · rw [if_pos h1]; left; rfl
  · rw [if_neg h1]
    by_cases h2 : (fs.filter isSupported).length = 1 ∧
        isArchive ((fs.filter isSupported).headD "") = false
    · rw [if_pos h2]; right; cases r <;> rfl
    · rw [if_neg h2]; right; cases r <;> rfl

/-- C10: the upload handler filters unsupported files out locally — every
file name reaching an upload request is supported — and when no supplied
file is supported it sets the local unsupported-formats error and returns
without issuing any request or registering any document. -/
theorem upload_prefilter (files : List String) (resp : UploadResponse)
    (hall : ∀ f ∈ files, isSupported f = false) :
    handleFiles files resp =
      ⟨some (false, "Поддерживаемые форматы: PDF, Word, Excel, TXT, ZIP, RAR"), [], [], false⟩ ∧
    (∀ (files2 : List String) (resp2 : UploadResponse),
      ∀ req ∈ (handleFiles files2 resp2).requests, ∀ n ∈ req, isSupported n = true) := by
  constructor
  · have hnil : files.filter isSupported = [] :=
      List.filter_eq_nil_iff.mpr fun a ha => by simp [hall a ha]
    unfold handleFiles
    rw [if_pos hnil]
  · intro files2 resp2 req hreq n hn
    rcases handleFiles_requests_cases files2 resp2 with hc | hc
    · rw [hc] at hreq; simp at hreq
    · rw [hc] at hreq
      rcases List.mem_singleton.mp hreq with rfl
      exact (List.mem_filter.mp hn).2

/-- C10 witness: a batch containing only `virus.exe` is rejected locally
with the unsupported-formats error and no request, and in a mixed batch
only the supported `report.pdf` reaches a request. -/
theorem upload_prefilter_witness :
    handleFiles ["virus.exe"] (UploadResponse.netError "x") =
      ⟨some (false, "Поддерживаемые форматы: PDF, Word, Excel, TXT, ZIP, RAR"), [], [], false⟩ ∧
    isSupported "report.pdf" = true :=
  ⟨(upload_prefilter ["virus.exe"] (UploadResponse.netError "x") (by decide)).1,
   (upload_prefilter ["virus.exe"] (UploadResponse.netError "x") (by decide)).2
     ["report.pdf", "virus.exe"] (UploadResponse.okSingle 3) ["report.pdf"]
     (by decide) "report.pdf" (by decide)⟩

end RagFrontend
